import Mathlib

/-!
# Verification of the `impact-buyer` Soroban marketplace contract

Shallow embedding of
`regenbazaar/packages/contracts/Stellar/contracts/impact-buyer/src/lib.rs`
(types from `types.rs`, external collaborator interfaces from
`interfaces.rs`, concrete external collaborators as instantiated by
`test.rs`).

Modelling conventions:
* Soroban `Address` is modelled as `Nat`, Soroban `String` as Lean `String`,
  `Map<String,String>` as an association list (the contract only carries the
  map around, it never inspects it).
* Rust `i128` is modelled as `Int`; `i128` division truncates toward zero,
  which is `Int.tdiv`.  Rust `u32` counters are modelled as `Nat`
  (the contracts are compiled with checked arithmetic, so an overflowing
  counter aborts the call rather than wrapping).
* Contract storage is a record of the entries keyed by `DataKey`; absent
  entries are `none` (counters are read with `unwrap_or(0)` and written on
  every path that reads them, so they are modelled as plain `Nat` starting
  at `0`).
* A host call either commits (`Except.ok` carrying the value and the new
  state) or aborts (`Except.error`): a `panic!` rolls back every write of
  the enclosing invocation, which the `Except` shape captures by
  construction (an error result carries no state at all).
* `require_auth` is host-ambient: an entry point is only ever invoked with
  a valid authorization proof for the named acting address, so it is not
  modelled as a failure source.
-/

namespace ImpactBuyer

/-- Soroban `Address`. -/
abbrev Addr := Nat

/-- Soroban `String` (NFT token ids, metric keys/values). -/
abbrev SymStr := String

/-- `Map<String, String>` carried opaquely by the contract. -/
abbrev Metrics := List (SymStr × SymStr)

/-- `ContractConfig` from `types.rs`: fee in parts-per-1000 plus pause flag. -/
structure ContractConfig where
  fee_percentage : Nat
  is_paused : Bool
deriving DecidableEq, Repr

/-- `ImpactProduct` from `types.rs`. -/
structure ImpactProduct where
  id : Nat
  price : Int
  seller : Addr
  token : Addr
  nft_contract : Addr
  nft_token_id : SymStr
  impact_metrics : Metrics
  is_listed : Bool
deriving DecidableEq, Repr

/-- `Purchase` from `types.rs`. -/
structure Purchase where
  id : Nat
  product_id : Nat
  buyer : Addr
  total_price : Int
  platform_fee : Int
  nft_contract : Addr
  nft_token_id : SymStr
  timestamp : Nat
deriving DecidableEq, Repr

/-- Abort causes.  The first seven are the `ErrorCode` variants of
`types.rs`; `feeTooHigh` is the ad-hoc `panic!("Fee percentage too high")`;
`missingState` is a panicking `.unwrap()` on an absent storage entry; the
two `token*` variants are the aborts of the Stellar asset contract's
`transfer`. -/
inductive Err where
  | alreadyInitialized
  | unauthorized
  | productNotFound
  | productNotListed
  | insufficientFunds
  | cannotBuyOwnNFT
  | contractPaused
  | feeTooHigh
  | missingState
  | tokenNegativeAmount
  | tokenInsufficientBalance
deriving DecidableEq, Repr

/-- The contract's instance storage, one field per `DataKey` family. -/
structure ContractState where
  admin : Option Addr
  config : Option ContractConfig
  productCounter : Nat
  purchaseCounter : Nat
  products : Nat → Option ImpactProduct
  purchases : Nat → Option Purchase
  sellerProducts : Addr → List Nat
  buyerPurchases : Addr → List Nat

/-- The contract storage together with the external collaborators it calls:
payment-token balances (token contract address → holder → balance) and NFT
ownership (NFT contract address × token id → owner), plus the contract's own
address and the ledger timestamp. -/
structure World where
  contract : ContractState
  self : Addr
  timestamp : Nat
  tokenBalances : Addr → Addr → Int
  nftOwner : Addr × SymStr → Addr

/-- Pointwise map update. -/
def upd {α β : Type} [DecidableEq α] (m : α → β) (k : α) (v : β) : α → β :=
  fun j => if j = k then v else m j

/-- `env.storage().instance().get(&DataKey::Config).unwrap()`. -/
def getConfig (s : ContractState) : Except Err ContractConfig :=
  match s.config with
  | none => .error .missingState
  | some c => .ok c

/-- `env.storage().instance().get(&DataKey::Admin).unwrap()`. -/
def getAdmin (s : ContractState) : Except Err Addr :=
  match s.admin with
  | none => .error .missingState
  | some a => .ok a

/-- `ImpactBuyerContract::is_admin`. -/
def is_admin (s : ContractState) (caller : Addr) : Except Err Bool :=
  match s.admin with
  | none => .error .missingState
  | some a => .ok (a == caller)

/-- `ImpactBuyerContract::calculate_fee`:
`(amount * (config.fee_percentage as i128)) / 1000i128` with Rust's
truncating `i128` division. -/
def calculate_fee (s : ContractState) (amount : Int) : Except Err Int :=
  match s.config with
  | none => .error .missingState
  | some config => .ok (Int.tdiv (amount * (config.fee_percentage : Int)) 1000)

/-- `ImpactBuyerContract::ensure_not_paused`. -/
def ensure_not_paused (s : ContractState) : Except Err Unit :=
  match s.config with
  | none => .error .missingState
  | some config => if config.is_paused then .error .contractPaused else .ok ()

/-- Moving `amount` from `source` to `dest` in a balance map. -/
def applyTransfer (bal : Addr → Int) (source dest : Addr) (amount : Int) :
    Addr → Int :=
  let bal₁ := upd bal source (bal source - amount)
  upd bal₁ dest (bal₁ dest + amount)

/-- Semantics of the payment token's `transfer(from, to, amount)`.  The
repository's tests instantiate the payment token as the host's Stellar asset
contract, whose `transfer` aborts the enclosing call when the amount is
negative or when the sender's balance is below the amount, and otherwise
moves `amount` from sender to receiver. -/
def tokenTransfer (bal : Addr → Int) (source dest : Addr) (amount : Int) :
    Except Err (Addr → Int) :=
  if amount < 0 then .error .tokenNegativeAmount
  else if bal source < amount then .error .tokenInsufficientBalance
  else .ok (applyTransfer bal source dest amount)

/-- Semantics of the NFT collaborator's `transfer(from, to, token_id)`, as
implemented by the repository's `MockNftContract`: the ownership check is
commented out there, so the transfer simply rebinds the token's owner. -/
def nftTransfer (own : Addr × SymStr → Addr) (nftc : Addr) (tokenId : SymStr)
    (dest : Addr) : Addr × SymStr → Addr :=
  upd own (nftc, tokenId) dest

/-- `ImpactBuyerInterface::initialize` (named `init_contract` here). -/
def init_contract (s : ContractState) (admin : Addr) (fee_percentage : Nat) :
    Except Err ContractState :=
  if s.admin.isSome then .error .alreadyInitialized
  else if fee_percentage > 300 then .error .feeTooHigh
  else
    .ok { s with
      admin := some admin,
      config := some { fee_percentage := fee_percentage, is_paused := false },
      productCounter := 0,
      purchaseCounter := 0 }

/-- `ImpactBuyerInterface::list_product`. -/
def list_product (w : World) (seller : Addr) (price : Int) (token : Addr)
    (nft_contract : Addr) (nft_token_id : SymStr) (impact_metrics : Metrics) :
    Except Err (Nat × World) :=
  match ensure_not_paused w.contract with
  | .error e => .error e
  | .ok _ =>
    -- verify the seller owns the NFT
    if w.nftOwner (nft_contract, nft_token_id) ≠ seller then .error .unauthorized
    else
      let new_product_id := w.contract.productCounter + 1
      let product : ImpactProduct :=
        { id := new_product_id, price := price, seller := seller, token := token,
          nft_contract := nft_contract, nft_token_id := nft_token_id,
          impact_metrics := impact_metrics, is_listed := true }
      let c := w.contract
      -- counter write, product write, seller-index append
      let c' : ContractState :=
        { c with
          productCounter := new_product_id,
          products := upd c.products new_product_id (some product),
          sellerProducts :=
            upd c.sellerProducts seller (c.sellerProducts seller ++ [new_product_id]) }
      -- NFT escrow: transfer seller → contract
      let w' : World :=
        { w with
          contract := c',
          nftOwner := nftTransfer w.nftOwner nft_contract nft_token_id w.self }
      .ok (new_product_id, w')

/-- `ImpactBuyerInterface::unlist_product`. -/
def unlist_product (w : World) (seller : Addr) (product_id : Nat) :
    Except Err (Bool × World) :=
  match ensure_not_paused w.contract with
  | .error e => .error e
  | .ok _ =>
    match w.contract.products product_id with
    | none => .error .productNotFound
    | some product =>
      match is_admin w.contract seller with
      | .error e => .error e
      | .ok isAdm =>
        if product.seller ≠ seller ∧ isAdm = false then .error .unauthorized
        else if product.is_listed = false then .ok (false, w)
        else
          let product' := { product with is_listed := false }
          let c' : ContractState :=
            { w.contract with products := upd w.contract.products product_id (some product') }
          -- NFT returned from escrow to the seller
          let w' : World :=
            { w with
              contract := c',
              nftOwner :=
                nftTransfer w.nftOwner product.nft_contract product.nft_token_id product.seller }
          .ok (true, w')

/-- `ImpactBuyerInterface::get_product`. -/
def get_product (s : ContractState) (product_id : Nat) : Option ImpactProduct :=
  s.products product_id

/-- `ImpactBuyerInterface::get_purchase`. -/
def get_purchase (s : ContractState) (purchase_id : Nat) : Option Purchase :=
  s.purchases purchase_id

/-- `ImpactBuyerInterface::buy_product`. -/
def buy_product (w : World) (buyer : Addr) (product_id : Nat) :
    Except Err (Nat × World) :=
  match ensure_not_paused w.contract with
  | .error e => .error e
  | .ok _ =>
    match w.contract.products product_id with
    | none => .error .productNotFound
    | some product =>
      if product.is_listed = false then .error .productNotListed
      else if product.seller == buyer then .error .cannotBuyOwnNFT
      else
        let total_price := product.price
        match calculate_fee w.contract total_price with
        | .error e => .error e
        | .ok fee =>
          let seller_amount := total_price - fee
          let bal := w.tokenBalances product.token
          if bal buyer < total_price then .error .insufficientFunds
          else
            -- transfer seller's share
            match tokenTransfer bal buyer product.seller seller_amount with
            | .error e => .error e
            | .ok bal₁ =>
              match getAdmin w.contract with
              | .error e => .error e
              | .ok admin =>
                -- transfer platform fee to admin
                match tokenTransfer bal₁ buyer admin fee with
                | .error e => .error e
                | .ok bal₂ =>
                  let product' := { product with is_listed := false }
                  let new_purchase_id := w.contract.purchaseCounter + 1
                  let purchase : Purchase :=
                    { id := new_purchase_id, product_id := product_id, buyer := buyer,
                      total_price := total_price, platform_fee := fee,
                      nft_contract := product.nft_contract,
                      nft_token_id := product.nft_token_id,
                      timestamp := w.timestamp }
                  let c := w.contract
                  let c' : ContractState :=
                    { c with
                      products := upd c.products product_id (some product'),
                      purchaseCounter := new_purchase_id,
                      purchases := upd c.purchases new_purchase_id (some purchase),
                      buyerPurchases :=
                        upd c.buyerPurchases buyer
                          (c.buyerPurchases buyer ++ [new_purchase_id]) }
                  let w' : World :=
                    { w with
                      contract := c',
                      tokenBalances := upd w.tokenBalances product.token bal₂,
                      nftOwner :=
                        nftTransfer w.nftOwner product.nft_contract product.nft_token_id buyer }
                  .ok (new_purchase_id, w')

/-- Loop of `ImpactBuyerInterface::batch_buy_products`: one `buy_product`
call per id, in the given order, results collected in order. -/
def batch_buy_loop (buyer : Addr) : World → List Nat → Except Err (List Nat × World)
  | w, [] => .ok ([], w)
  | w, id :: rest =>
    match buy_product w buyer id with
    | .error e => .error e
    | .ok (pid, w₁) =>
      match batch_buy_loop buyer w₁ rest with
      | .error e => .error e
      | .ok (pids, w₂) => .ok (pid :: pids, w₂)

/-- `ImpactBuyerInterface::batch_buy_products`. -/
def batch_buy_products (w : World) (buyer : Addr) (product_ids : List Nat) :
    Except Err (List Nat × World) :=
  match ensure_not_paused w.contract with
  | .error e => .error e
  | .ok _ => batch_buy_loop buyer w product_ids

/-- `ImpactBuyerInterface::update_product`. -/
def update_product (s : ContractState) (seller : Addr) (product_id : Nat)
    (price : Option Int) (impact_metrics : Option Metrics) :
    Except Err (Bool × ContractState) :=
  match ensure_not_paused s with
  | .error e => .error e
  | .ok _ =>
    match s.products product_id with
    | none => .error .productNotFound
    | some product =>
      if product.seller ≠ seller then .error .unauthorized
      else if product.is_listed = false then .error .productNotListed
      else
        let product₁ :=
          match price with
          | some new_price => { product with price := new_price }
          | none => product
        let product₂ :=
          match impact_metrics with
          | some new_metrics => { product₁ with impact_metrics := new_metrics }
          | none => product₁
        .ok (true, { s with products := upd s.products product_id (some product₂) })

/-- `ImpactBuyerInterface::pause_contract`. -/
def pause_contract (s : ContractState) (admin : Addr) :
    Except Err (Bool × ContractState) :=
  match is_admin s admin with
  | .error e => .error e
  | .ok isAdm =>
    if isAdm = false then .error .unauthorized
    else
      match s.config with
      | none => .error .missingState
      | some config =>
        if config.is_paused then .ok (false, s)
        else .ok (true, { s with config := some { config with is_paused := true } })

/-- `ImpactBuyerInterface::unpause_contract`. -/
def unpause_contract (s : ContractState) (admin : Addr) :
    Except Err (Bool × ContractState) :=
  match is_admin s admin with
  | .error e => .error e
  | .ok isAdm =>
    if isAdm = false then .error .unauthorized
    else
      match s.config with
      | none => .error .missingState
      | some config =>
        if config.is_paused = false then .ok (false, s)
        else .ok (true, { s with config := some { config with is_paused := false } })

/-- `ImpactBuyerInterface::update_fee_percentage`.  Note: after the admin and
range checks it unconditionally stores the new fee and returns `true` — there
is no comparison with the current fee. -/
def update_fee_percentage (s : ContractState) (admin : Addr)
    (new_fee_percentage : Nat) : Except Err (Bool × ContractState) :=
  match is_admin s admin with
  | .error e => .error e
  | .ok isAdm =>
    if isAdm = false then .error .unauthorized
    else if new_fee_percentage > 300 then .error .feeTooHigh
    else
      match s.config with
      | none => .error .missingState
      | some config =>
        .ok (true, { s with config := some { config with fee_percentage := new_fee_percentage } })

/-! ## Operation labels and the step relation over committed states -/

/-- One invocation of a mutating entry point, with its arguments. -/
inductive Op where
  | opInit (admin : Addr) (fee : Nat)
  | opList (seller : Addr) (price : Int) (token nftc : Addr) (nftId : SymStr) (m : Metrics)
  | opUnlist (seller : Addr) (pid : Nat)
  | opBuy (buyer : Addr) (pid : Nat)
  | opBatchBuy (buyer : Addr) (pids : List Nat)
  | opUpdate (seller : Addr) (pid : Nat) (price : Option Int) (m : Option Metrics)
  | opPause (admin : Addr)
  | opUnpause (admin : Addr)
  | opUpdateFee (admin : Addr) (fee : Nat)

/-- The committed world after one invocation: on success the new world, on
abort the old one (the host rolls back every write of a failed call). -/
def step (w : World) : Op → World
  | .opInit a f =>
    match init_contract w.contract a f with
    | .ok s => { w with contract := s }
    | .error _ => w
  | .opList s p t nc nid m =>
    match list_product w s p t nc nid m with
    | .ok r => r.2
    | .error _ => w
  | .opUnlist s pid =>
    match unlist_product w s pid with
    | .ok r => r.2
    | .error _ => w
  | .opBuy b pid =>
    match buy_product w b pid with
    | .ok r => r.2
    | .error _ => w
  | .opBatchBuy b pids =>
    match batch_buy_products w b pids with
    | .ok r => r.2
    | .error _ => w
  | .opUpdate s pid pr m =>
    match update_product w.contract s pid pr m with
    | .ok r => { w with contract := r.2 }
    | .error _ => w
  | .opPause a =>
    match pause_contract w.contract a with
    | .ok r => { w with contract := r.2 }
    | .error _ => w
  | .opUnpause a =>
    match unpause_contract w.contract a with
    | .ok r => { w with contract := r.2 }
    | .error _ => w
  | .opUpdateFee a f =>
    match update_fee_percentage w.contract a f with
    | .ok r => { w with contract := r.2 }
    | .error _ => w

/-- One `buy_product` call per listed id, threaded in order: the relational
description of a batch purchase that succeeds at every id. -/
inductive SeqBuys (buyer : Addr) : World → List Nat → List Nat → World → Prop where
  | nil (w : World) : SeqBuys buyer w [] [] w
  | cons (w w₁ w₂ : World) (id pid : Nat) (rest pids : List Nat) :
      buy_product w buyer id = .ok (pid, w₁) →
      SeqBuys buyer w₁ rest pids w₂ →
      SeqBuys buyer w (id :: rest) (pid :: pids) w₂

/-! ## Concrete fixtures used by the witness theorems -/

/-- A listed product: price 1000, seller 1, payment token 5, NFT contract 6. -/
def P0 : ImpactProduct :=
  { id := 1, price := 1000, seller := 1, token := 5, nft_contract := 6,
    nft_token_id := "n1", impact_metrics := [], is_listed := true }

/-- An initialized contract (admin 0, fee 25 = 2.5 percent, unpaused) holding
product 1 in escrow. -/
def S0 : ContractState :=
  { admin := some 0, config := some { fee_percentage := 25, is_paused := false },
    productCounter := 1, purchaseCounter := 0,
    products := fun j => if j = 1 then some P0 else none,
    purchases := fun _ => none,
    sellerProducts := fun a => if a = 1 then [1] else [],
    buyerPurchases := fun _ => [] }

/-- World around `S0`: the contract address is 100, buyer 2 holds 1000 units
of token 5, and the listed NFT (6, "n1") is in contract custody. -/
def W0 : World :=
  { contract := S0, self := 100, timestamp := 7,
    tokenBalances := fun t h => if t = 5 ∧ h = 2 then 1000 else 0,
    nftOwner := fun q => if q = (6, "n1") then 100 else 99 }

/-- The world after buyer 2 purchases product 1 in `W0`. -/
def W1 : World :=
  match buy_product W0 2 1 with
  | .ok r => r.2
  | .error _ => W0

/-- `W0` with the contract paused. -/
def WP : World :=
  { W0 with contract :=
      { S0 with config := some { fee_percentage := 25, is_paused := true } } }

/-- The world after the batch purchase of `[1]` by buyer 2 in `W0`. -/
def WB : World :=
  match batch_buy_products W0 2 [1] with
  | .ok r => r.2
  | .error _ => W0

/-- The world after seller 1 unlists product 1 in `W0`. -/
def WU : World :=
  match unlist_product W0 1 1 with
  | .ok r => r.2
  | .error _ => W0

/-- The state after seller 1 raises the price of product 1 to 2000. -/
def SU : ContractState :=
  match update_product S0 1 1 (some 2000) none with
  | .ok r => r.2
  | .error _ => S0

/-- `W0` with a second NFT (6, "n2") owned by seller 1, ready to list. -/
def W0b : World :=
  { W0 with nftOwner := fun q => if q = (6, "n2") then 1 else W0.nftOwner q }

/-- The world after seller 1 lists the NFT (6, "n2") at price -5 in `W0b`. -/
def WL : World :=
  match list_product W0b 1 (-5) 5 6 "n2" [] with
  | .ok r => r.2
  | .error _ => W0b

/-- The empty (never-initialized) contract state. -/
def Sempty : ContractState :=
  { admin := none, config := none, productCounter := 0, purchaseCounter := 0,
    products := fun _ => none, purchases := fun _ => none,
    sellerProducts := fun _ => [], buyerPurchases := fun _ => [] }

/-- Invariant tying the id counters to the stored records: every stored
product (purchase) id is bounded by the product (purchase) counter, and an
uninitialized contract (no admin) has no config, zero counters and no
records.  It holds in the empty state and is preserved by every entry
point. -/
def CountersInv (s : ContractState) : Prop :=
  (∀ id, (s.products id).isSome → id ≤ s.productCounter) ∧
  (∀ id, (s.purchases id).isSome → id ≤ s.purchaseCounter) ∧
  (s.admin = none →
    s.config = none ∧ s.productCounter = 0 ∧ s.purchaseCounter = 0 ∧
    (∀ id, s.products id = none) ∧ (∀ id, s.purchases id = none))

/-! ## Helper lemmas -/

@[simp] theorem upd_same {α β : Type} [DecidableEq α] (m : α → β) (k : α) (v : β) :
    upd m k v k = v := by
  simp [upd]

theorem upd_ne {α β : Type} [DecidableEq α] (m : α → β) (k : α) (v : β)
    {j : α} (h : j ≠ k) : upd m k v j = m j := by
  simp [upd, h]


theorem applyTransfer_dest {bal : Addr → Int} {source dest : Addr} {amt : Int}
    (h : dest ≠ source) : applyTransfer bal source dest amt dest = bal dest + amt := by
  simp [applyTransfer, upd_ne _ _ _ h]

theorem applyTransfer_source {bal : Addr → Int} {source dest : Addr} {amt : Int}
    (h : source ≠ dest) : applyTransfer bal source dest amt source = bal source - amt := by
  simp [applyTransfer, upd_ne _ _ _ h]

theorem applyTransfer_other {bal : Addr → Int} {source dest x : Addr} {amt : Int}
    (h₁ : x ≠ source) (h₂ : x ≠ dest) :
    applyTransfer bal source dest amt x = bal x := by
  simp [applyTransfer, upd_ne _ _ _ h₁, upd_ne _ _ _ h₂]

theorem ensure_ok_elim {s : ContractState} {u : Unit}
    (h : ensure_not_paused s = .ok u) :
    ∃ cfg, s.config = some cfg ∧ cfg.is_paused = false := by
  unfold ensure_not_paused at h
  split at h
  · exact Except.noConfusion h
  · rename_i cfg heq
    split at h
    · exact Except.noConfusion h
    · exact ⟨cfg, by assumption, by simp_all⟩

theorem ensure_paused_intro {s : ContractState} {cfg : ContractConfig}
    (hc : s.config = some cfg) (hp : cfg.is_paused = true) :
    ensure_not_paused s = .error .contractPaused := by
  simp [ensure_not_paused, hc, hp]

theorem ensure_ok_intro {s : ContractState} {cfg : ContractConfig}
    (hc : s.config = some cfg) (hp : cfg.is_paused = false) :
    ensure_not_paused s = .ok () := by
  simp [ensure_not_paused, hc, hp]

theorem is_admin_ok_elim {s : ContractState} {c : Addr} {b : Bool}
    (h : is_admin s c = .ok b) :
    ∃ a, s.admin = some a ∧ b = (a == c) := by
  unfold is_admin at h
  split at h
  · exact Except.noConfusion h
  · rename_i a heq
    exact ⟨a, by assumption, by simp_all⟩

theorem tokenTransfer_ok_elim {bal : Addr → Int} {source dest : Addr}
    {amt : Int} {bal' : Addr → Int}
    (h : tokenTransfer bal source dest amt = .ok bal') :
    0 ≤ amt ∧ amt ≤ bal source ∧ bal' = applyTransfer bal source dest amt := by
  unfold tokenTransfer at h
  split at h
  · exact Except.noConfusion h
  · split at h
    · exact Except.noConfusion h
    · refine ⟨by omega, by omega, by simp_all⟩

theorem getAdmin_ok_elim {s : ContractState} {a : Addr} (h : getAdmin s = .ok a) :
    s.admin = some a := by
  unfold getAdmin at h
  split at h
  · exact Except.noConfusion h
  · rename_i x heq
    simp only [Except.ok.injEq] at h
    subst h
    assumption

theorem calculate_fee_ok_elim {s : ContractState} {cfg : ContractConfig} {amount fee : Int}
    (hc : s.config = some cfg) (h : calculate_fee s amount = .ok fee) :
    fee = Int.tdiv (amount * cfg.fee_percentage) 1000 := by
  unfold calculate_fee at h
  rw [hc] at h
  simp only [Except.ok.injEq] at h
  exact h.symm

theorem list_product_ok_elim {w : World} {seller : Addr} {price : Int} {token nftc : Addr}
    {nid : SymStr} {m : Metrics} {n : Nat} {w' : World}
    (h : list_product w seller price token nftc nid m = .ok (n, w')) :
    (∃ cfg, w.contract.config = some cfg ∧ cfg.is_paused = false) ∧
    w.nftOwner (nftc, nid) = seller ∧
    n = w.contract.productCounter + 1 ∧
    w' = { w with
      contract := { w.contract with
        productCounter := w.contract.productCounter + 1,
        products := upd w.contract.products (w.contract.productCounter + 1)
          (some { id := w.contract.productCounter + 1, price := price, seller := seller,
                  token := token, nft_contract := nftc, nft_token_id := nid,
                  impact_metrics := m, is_listed := true }),
        sellerProducts := upd w.contract.sellerProducts seller
          (w.contract.sellerProducts seller ++ [w.contract.productCounter + 1]) },
      nftOwner := nftTransfer w.nftOwner nftc nid w.self } := by
  unfold list_product at h
  split at h
  · exact Except.noConfusion h
  · rename_i u hEnsure
    split at h
    · exact Except.noConfusion h
    · rename_i hOwn
      simp only [Except.ok.injEq, Prod.mk.injEq] at h
      obtain ⟨hn, hw⟩ := h
      exact ⟨ensure_ok_elim hEnsure, not_ne_iff.mp hOwn, hn.symm, hw.symm⟩

theorem buy_product_ok_elim {w : World} {buyer : Addr} {pid : Nat} {n : Nat} {w' : World}
    (h : buy_product w buyer pid = .ok (n, w')) :
    ∃ cfg p a fee,
      w.contract.config = some cfg ∧ cfg.is_paused = false ∧
      w.contract.products pid = some p ∧ p.is_listed = true ∧ p.seller ≠ buyer ∧
      w.contract.admin = some a ∧
      fee = Int.tdiv (p.price * cfg.fee_percentage) 1000 ∧
      0 ≤ fee ∧ 0 ≤ p.price - fee ∧
      p.price ≤ w.tokenBalances p.token buyer ∧
      n = w.contract.purchaseCounter + 1 ∧
      w' = { w with
        contract := { w.contract with
          products := upd w.contract.products pid (some { p with is_listed := false }),
          purchaseCounter := w.contract.purchaseCounter + 1,
          purchases := upd w.contract.purchases (w.contract.purchaseCounter + 1)
            (some { id := w.contract.purchaseCounter + 1, product_id := pid, buyer := buyer,
                    total_price := p.price, platform_fee := fee,
                    nft_contract := p.nft_contract, nft_token_id := p.nft_token_id,
                    timestamp := w.timestamp }),
          buyerPurchases := upd w.contract.buyerPurchases buyer
            (w.contract.buyerPurchases buyer ++ [w.contract.purchaseCounter + 1]) },
        tokenBalances := upd w.tokenBalances p.token
          (applyTransfer
            (applyTransfer (w.tokenBalances p.token) buyer p.seller (p.price - fee))
            buyer a fee),
        nftOwner := nftTransfer w.nftOwner p.nft_contract p.nft_token_id buyer } := by
  unfold buy_product at h
  cases hEnsure : ensure_not_paused w.contract with
  | error e => rw [hEnsure] at h; exact Except.noConfusion h
  | ok u =>
    rw [hEnsure] at h
    try simp only [] at h
    cases hProd : w.contract.products pid with
    | none => rw [hProd] at h; exact Except.noConfusion h
    | some p =>
      rw [hProd] at h
      try simp only [] at h
      by_cases hL : p.is_listed = false
      · rw [if_pos hL] at h; exact Except.noConfusion h
      · rw [if_neg hL] at h
        by_cases hOwn : (p.seller == buyer) = true
        · rw [if_pos hOwn] at h; exact Except.noConfusion h
        · rw [if_neg hOwn] at h
          try simp only [] at h
          cases hFee : calculate_fee w.contract p.price with
          | error e => rw [hFee] at h; exact Except.noConfusion h
          | ok fee =>
            rw [hFee] at h
            try simp only [] at h
            by_cases hBal : w.tokenBalances p.token buyer < p.price
            · rw [if_pos hBal] at h; exact Except.noConfusion h
            · rw [if_neg hBal] at h
              cases hT1 : tokenTransfer (w.tokenBalances p.token) buyer p.seller (p.price - fee) with
              | error e => rw [hT1] at h; exact Except.noConfusion h
              | ok bal₁ =>
                rw [hT1] at h
                try simp only [] at h
                cases hA : getAdmin w.contract with
                | error e => rw [hA] at h; exact Except.noConfusion h
                | ok a =>
                  rw [hA] at h
                  try simp only [] at h
                  cases hT2 : tokenTransfer bal₁ buyer a fee with
                  | error e => rw [hT2] at h; exact Except.noConfusion h
                  | ok bal₂ =>
                    rw [hT2] at h
                    simp only [Except.ok.injEq, Prod.mk.injEq] at h
                    obtain ⟨hn, hw⟩ := h
                    obtain ⟨cfg, hc, hp⟩ := ensure_ok_elim hEnsure
                    obtain ⟨hf1, hf2, hb1⟩ := tokenTransfer_ok_elim hT1
                    obtain ⟨hg1, hg2, hb2⟩ := tokenTransfer_ok_elim hT2
                    have hfee : fee = Int.tdiv (p.price * cfg.fee_percentage) 1000 :=
                      calculate_fee_ok_elim hc hFee
                    have hAdm : w.contract.admin = some a := getAdmin_ok_elim hA
                    refine ⟨cfg, p, a, fee, hc, hp, rfl, ?_, ?_, hAdm, hfee, ?_, ?_, ?_,
                      hn.symm, ?_⟩
                    · simpa using hL
                    · simpa [beq_iff_eq] using hOwn
                    · omega
                    · omega
                    · omega
                    · rw [← hw]
                      subst hb1 hb2
                      rfl

theorem unlist_product_ok_elim {w : World} {seller : Addr} {pid : Nat} {b : Bool} {w' : World}
    (h : unlist_product w seller pid = .ok (b, w')) :
    ∃ cfg p a, w.contract.config = some cfg ∧ cfg.is_paused = false ∧
      w.contract.products pid = some p ∧ w.contract.admin = some a ∧
      ((b = false ∧ p.is_listed = false ∧ w' = w) ∨
       (b = true ∧ p.is_listed = true ∧
        w' = { w with
          contract := { w.contract with
            products := upd w.contract.products pid (some { p with is_listed := false }) },
          nftOwner := nftTransfer w.nftOwner p.nft_contract p.nft_token_id p.seller })) := by
  unfold unlist_product at h
  cases hEnsure : ensure_not_paused w.contract with
  | error e => rw [hEnsure] at h; exact Except.noConfusion h
  | ok u =>
    rw [hEnsure] at h
    try simp only [] at h
    cases hProd : w.contract.products pid with
    | none => rw [hProd] at h; exact Except.noConfusion h
    | some p =>
      rw [hProd] at h
      try simp only [] at h
      cases hAdm : is_admin w.contract seller with
      | error e => rw [hAdm] at h; exact Except.noConfusion h
      | ok isAdm =>
        rw [hAdm] at h
        try simp only [] at h
        obtain ⟨cfg, hc, hp⟩ := ensure_ok_elim hEnsure
        obtain ⟨a, ha, hb⟩ := is_admin_ok_elim hAdm
        by_cases hAuth : p.seller ≠ seller ∧ isAdm = false
        · rw [if_pos hAuth] at h; exact Except.noConfusion h
        · rw [if_neg hAuth] at h
          by_cases hL : p.is_listed = false
          · rw [if_pos hL] at h
            simp only [Except.ok.injEq, Prod.mk.injEq] at h
            obtain ⟨hb1, hw⟩ := h
            exact ⟨cfg, p, a, hc, hp, rfl, ha, Or.inl ⟨hb1.symm, hL, hw.symm⟩⟩
          · rw [if_neg hL] at h
            simp only [Except.ok.injEq, Prod.mk.injEq] at h
            obtain ⟨hb1, hw⟩ := h
            exact ⟨cfg, p, a, hc, hp, rfl, ha,
              Or.inr ⟨hb1.symm, by simpa using hL, hw.symm⟩⟩

theorem update_product_ok_elim {s : ContractState} {seller : Addr} {pid : Nat}
    {price? : Option Int} {m? : Option Metrics} {b : Bool} {s' : ContractState}
    (h : update_product s seller pid price? m? = .ok (b, s')) :
    ∃ cfg p, s.config = some cfg ∧ cfg.is_paused = false ∧
      s.products pid = some p ∧ p.seller = seller ∧ p.is_listed = true ∧
      b = true ∧
      s' = { s with
        products := upd s.products pid
          (some { p with price := price?.getD p.price,
                         impact_metrics := m?.getD p.impact_metrics }) } := by
  unfold update_product at h
  cases hEnsure : ensure_not_paused s with
  | error e => rw [hEnsure] at h; exact Except.noConfusion h
  | ok u =>
    rw [hEnsure] at h
    try simp only [] at h
    cases hProd : s.products pid with
    | none => rw [hProd] at h; exact Except.noConfusion h
    | some p =>
      rw [hProd] at h
      try simp only [] at h
      obtain ⟨cfg, hc, hp⟩ := ensure_ok_elim hEnsure
      by_cases hSel : p.seller ≠ seller
      · rw [if_pos hSel] at h; exact Except.noConfusion h
      · rw [if_neg hSel] at h
        by_cases hL : p.is_listed = false
        · rw [if_pos hL] at h; exact Except.noConfusion h
        · rw [if_neg hL] at h
          simp only [Except.ok.injEq, Prod.mk.injEq] at h
          obtain ⟨hb1, hs⟩ := h
          refine ⟨cfg, p, hc, hp, rfl, not_ne_iff.mp hSel, by simpa using hL, hb1.symm, ?_⟩
          rw [← hs]
          cases price? <;> cases m? <;> rfl

/-! ## Counter invariant -/

theorem upd_bound {α : Type} {m : Nat → Option α} {cnt k : Nat} {v : α}
    (hb : ∀ id, (m id).isSome → id ≤ cnt) (hk : k ≤ cnt + 1) :
    ∀ id, ((upd m k (some v)) id).isSome → id ≤ cnt + 1 := by
  intro id hid
  by_cases hik : id = k
  · omega
  · rw [upd_ne _ _ _ hik] at hid
    exact le_trans (hb id hid) (by omega)

theorem upd_bound_same {α : Type} {m : Nat → Option α} {cnt k : Nat} {v : α}
    (hb : ∀ id, (m id).isSome → id ≤ cnt) (hk : k ≤ cnt) :
    ∀ id, ((upd m k (some v)) id).isSome → id ≤ cnt := by
  intro id hid
  by_cases hik : id = k
  · omega
  · rw [upd_ne _ _ _ hik] at hid
    exact hb id hid

theorem list_ok_counters {w : World} {seller : Addr} {price : Int} {token nftc : Addr}
    {nid : SymStr} {m : Metrics} {n : Nat} {w' : World}
    (hInv : CountersInv w.contract)
    (h : list_product w seller price token nftc nid m = .ok (n, w')) :
    CountersInv w'.contract ∧
    n = w.contract.productCounter + 1 ∧
    w'.contract.productCounter = n ∧
    w'.contract.purchaseCounter = w.contract.purchaseCounter ∧
    w.contract.products n = none := by
  obtain ⟨⟨cfg, hc, hp⟩, hown, hn, hw⟩ := list_product_ok_elim h
  subst hw
  subst hn
  obtain ⟨h1, h2, h3⟩ := hInv
  have hfresh : w.contract.products (w.contract.productCounter + 1) = none := by
    cases hq : w.contract.products (w.contract.productCounter + 1) with
    | none => rfl
    | some q =>
      have := h1 (w.contract.productCounter + 1) (by simp [hq])
      omega
  refine ⟨⟨upd_bound h1 (le_refl _), h2, ?_⟩, rfl, rfl, rfl, hfresh⟩
  intro hnone
  rw [(h3 hnone).1] at hc
  exact Option.noConfusion hc

theorem buy_ok_counters {w : World} {buyer : Addr} {pid n : Nat} {w' : World}
    (hInv : CountersInv w.contract)
    (h : buy_product w buyer pid = .ok (n, w')) :
    CountersInv w'.contract ∧
    n = w.contract.purchaseCounter + 1 ∧
    w'.contract.purchaseCounter = n ∧
    w'.contract.productCounter = w.contract.productCounter ∧
    w.contract.purchases n = none := by
  obtain ⟨cfg, p, a, fee, hc, hp, hProd, hL, hSel, hAdm, hfee, hf0, hs0, hbal, hn, hw⟩ :=
    buy_product_ok_elim h
  subst hw
  subst hn
  obtain ⟨h1, h2, h3⟩ := hInv
  have hfresh : w.contract.purchases (w.contract.purchaseCounter + 1) = none := by
    cases hq : w.contract.purchases (w.contract.purchaseCounter + 1) with
    | none => rfl
    | some q =>
      have := h2 (w.contract.purchaseCounter + 1) (by simp [hq])
      omega
  have hpidle : pid ≤ w.contract.productCounter := h1 pid (by simp [hProd])
  refine ⟨⟨upd_bound_same h1 hpidle, upd_bound h2 (le_refl _), ?_⟩, rfl, rfl, rfl, hfresh⟩
  intro hnone
  rw [(h3 hnone).1] at hc
  exact Option.noConfusion hc

theorem unlist_ok_counters {w : World} {seller : Addr} {pid : Nat} {b : Bool} {w' : World}
    (hInv : CountersInv w.contract)
    (h : unlist_product w seller pid = .ok (b, w')) :
    CountersInv w'.contract ∧
    w'.contract.productCounter = w.contract.productCounter ∧
    w'.contract.purchaseCounter = w.contract.purchaseCounter := by
  obtain ⟨cfg, p, a, hc, hp, hProd, hAdm, hcase⟩ := unlist_product_ok_elim h
  obtain ⟨h1, h2, h3⟩ := hInv
  rcases hcase with ⟨hb, hL, hw⟩ | ⟨hb, hL, hw⟩
  · subst hw
    exact ⟨⟨h1, h2, h3⟩, rfl, rfl⟩
  · subst hw
    have hpidle : pid ≤ w.contract.productCounter := h1 pid (by simp [hProd])
    refine ⟨⟨upd_bound_same h1 hpidle, h2, ?_⟩, rfl, rfl⟩
    intro hnone
    rw [hnone] at hAdm
    exact Option.noConfusion hAdm

theorem update_ok_counters {s : ContractState} {seller : Addr} {pid : Nat}
    {price? : Option Int} {m? : Option Metrics} {b : Bool} {s' : ContractState}
    (hInv : CountersInv s)
    (h : update_product s seller pid price? m? = .ok (b, s')) :
    CountersInv s' ∧
    s'.productCounter = s.productCounter ∧
    s'.purchaseCounter = s.purchaseCounter := by
  obtain ⟨cfg, p, hc, hp, hProd, hSel, hL, hb, hs⟩ := update_product_ok_elim h
  subst hs
  obtain ⟨h1, h2, h3⟩ := hInv
  have hpidle : pid ≤ s.productCounter := h1 pid (by simp [hProd])
  refine ⟨⟨upd_bound_same h1 hpidle, h2, ?_⟩, rfl, rfl⟩
  intro hnone
  rw [(h3 hnone).1] at hc
  exact Option.noConfusion hc

theorem init_contract_ok_elim {s : ContractState} {a : Addr} {f : Nat} {s' : ContractState}
    (h : init_contract s a f = .ok s') :
    s.admin = none ∧ f ≤ 300 ∧
    s' = { s with admin := some a,
                  config := some { fee_percentage := f, is_paused := false },
                  productCounter := 0, purchaseCounter := 0 } := by
  unfold init_contract at h
  by_cases h1 : s.admin.isSome
  · rw [if_pos h1] at h; exact Except.noConfusion h
  · rw [if_neg h1] at h
    by_cases h2 : f > 300
    · rw [if_pos h2] at h; exact Except.noConfusion h
    · rw [if_neg h2] at h
      simp only [Except.ok.injEq] at h
      exact ⟨Option.not_isSome_iff_eq_none.mp h1, by omega, h.symm⟩

theorem init_ok_counters {s : ContractState} {a : Addr} {f : Nat} {s' : ContractState}
    (hInv : CountersInv s)
    (h : init_contract s a f = .ok s') :
    CountersInv s' ∧
    s'.productCounter = s.productCounter ∧
    s'.purchaseCounter = s.purchaseCounter := by
  obtain ⟨hnone, hf, hs⟩ := init_contract_ok_elim h
  subst hs
  obtain ⟨h1, h2, h3⟩ := hInv
  obtain ⟨hcfg, hpc, hqc, hps, hqs⟩ := h3 hnone
  refine ⟨⟨?_, ?_, ?_⟩, ?_, ?_⟩
  · intro id hid
    have hid' : (s.products id).isSome = true := hid
    rw [hps id] at hid'
    exact Bool.noConfusion hid'
  · intro id hid
    have hid' : (s.purchases id).isSome = true := hid
    rw [hqs id] at hid'
    exact Bool.noConfusion hid'
  · intro hnone2
    have hx : (some a : Option Addr) = none := hnone2
    exact Option.noConfusion hx
  · show (0 : Nat) = s.productCounter
    omega
  · show (0 : Nat) = s.purchaseCounter
    omega

theorem pause_ok_counters {s : ContractState} {a : Addr} {b : Bool} {s' : ContractState}
    (hInv : CountersInv s)
    (h : pause_contract s a = .ok (b, s')) :
    CountersInv s' ∧
    s'.productCounter = s.productCounter ∧
    s'.purchaseCounter = s.purchaseCounter := by
  unfold pause_contract at h
  cases hAdm : is_admin s a with
  | error e => rw [hAdm] at h; exact Except.noConfusion h
  | ok isAdm =>
    rw [hAdm] at h
    try simp only [] at h
    obtain ⟨x, hx, _⟩ := is_admin_ok_elim hAdm
    obtain ⟨h1, h2, h3⟩ := hInv
    by_cases hAd : isAdm = false
    · rw [if_pos hAd] at h; exact Except.noConfusion h
    · rw [if_neg hAd] at h
      cases hC : s.config with
      | none => rw [hC] at h; exact Except.noConfusion h
      | some cfg =>
        rw [hC] at h
        try simp only [] at h
        by_cases hP : cfg.is_paused
        · rw [if_pos hP] at h
          simp only [Except.ok.injEq, Prod.mk.injEq] at h
          obtain ⟨_, hs⟩ := h
          subst hs
          exact ⟨⟨h1, h2, h3⟩, rfl, rfl⟩
        · rw [if_neg hP] at h
          simp only [Except.ok.injEq, Prod.mk.injEq] at h
          obtain ⟨_, hs⟩ := h
          subst hs
          refine ⟨⟨h1, h2, ?_⟩, rfl, rfl⟩
          intro hnone
          have hx' : s.admin = none := hnone
          rw [hx'] at hx
          exact Option.noConfusion hx

theorem unpause_ok_counters {s : ContractState} {a : Addr} {b : Bool} {s' : ContractState}
    (hInv : CountersInv s)
    (h : unpause_contract s a = .ok (b, s')) :
    CountersInv s' ∧
    s'.productCounter = s.productCounter ∧
    s'.purchaseCounter = s.purchaseCounter := by
  unfold unpause_contract at h
  cases hAdm : is_admin s a with
  | error e => rw [hAdm] at h; exact Except.noConfusion h
  | ok isAdm =>
    rw [hAdm] at h
    try simp only [] at h
    obtain ⟨x, hx, _⟩ := is_admin_ok_elim hAdm
    obtain ⟨h1, h2, h3⟩ := hInv
    by_cases hAd : isAdm = false
    · rw [if_pos hAd] at h; exact Except.noConfusion h
    · rw [if_neg hAd] at h
      cases hC : s.config with
      | none => rw [hC] at h; exact Except.noConfusion h
      | some cfg =>
        rw [hC] at h
        try simp only [] at h
        by_cases hP : cfg.is_paused = false
        · rw [if_pos hP] at h
          simp only [Except.ok.injEq, Prod.mk.injEq] at h
          obtain ⟨_, hs⟩ := h
          subst hs
          exact ⟨⟨h1, h2, h3⟩, rfl, rfl⟩
        · rw [if_neg hP] at h
          simp only [Except.ok.injEq, Prod.mk.injEq] at h
          obtain ⟨_, hs⟩ := h
          subst hs
          refine ⟨⟨h1, h2, ?_⟩, rfl, rfl⟩
          intro hnone
          have hx' : s.admin = none := hnone
          rw [hx'] at hx
          exact Option.noConfusion hx

theorem update_fee_ok_counters {s : ContractState} {a : Addr} {f : Nat} {b : Bool}
    {s' : ContractState}
    (hInv : CountersInv s)
    (h : update_fee_percentage s a f = .ok (b, s')) :
    CountersInv s' ∧
    s'.productCounter = s.productCounter ∧
    s'.purchaseCounter = s.purchaseCounter := by
  unfold update_fee_percentage at h
  cases hAdm : is_admin s a with
  | error e => rw [hAdm] at h; exact Except.noConfusion h
  | ok isAdm =>
    rw [hAdm] at h
    try simp only [] at h
    obtain ⟨x, hx, _⟩ := is_admin_ok_elim hAdm
    obtain ⟨h1, h2, h3⟩ := hInv
    by_cases hAd : isAdm = false
    · rw [if_pos hAd] at h; exact Except.noConfusion h
    · rw [if_neg hAd] at h
      by_cases hF : f > 300
      · rw [if_pos hF] at h; exact Except.noConfusion h
      · rw [if_neg hF] at h
        cases hC : s.config with
        | none => rw [hC] at h; exact Except.noConfusion h
        | some cfg =>
          rw [hC] at h
          simp only [Except.ok.injEq, Prod.mk.injEq] at h
          obtain ⟨_, hs⟩ := h
          subst hs
          refine ⟨⟨h1, h2, ?_⟩, rfl, rfl⟩
          intro hnone
          have hx' : s.admin = none := hnone
          rw [hx'] at hx
          exact Option.noConfusion hx

theorem batch_loop_counters {buyer : Addr} (ids : List Nat) :
    ∀ (w : World) (ps : List Nat) (w' : World),
    CountersInv w.contract →
    batch_buy_loop buyer w ids = .ok (ps, w') →
    CountersInv w'.contract ∧
    w.contract.productCounter ≤ w'.contract.productCounter ∧
    w.contract.purchaseCounter ≤ w'.contract.purchaseCounter := by
  induction ids with
  | nil =>
    intro w ps w' hInv h
    unfold batch_buy_loop at h
    simp only [Except.ok.injEq, Prod.mk.injEq] at h
    obtain ⟨_, hw⟩ := h
    subst hw
    exact ⟨hInv, le_refl _, le_refl _⟩
  | cons id rest ih =>
    intro w ps w' hInv h
    unfold batch_buy_loop at h
    cases hB : buy_product w buyer id with
    | error e => rw [hB] at h; exact Except.noConfusion h
    | ok r =>
      obtain ⟨pid, w₁⟩ := r
      rw [hB] at h
      try simp only [] at h
      cases hRest : batch_buy_loop buyer w₁ rest with
      | error e => rw [hRest] at h; exact Except.noConfusion h
      | ok r₂ =>
        obtain ⟨ps₂, w₂⟩ := r₂
        rw [hRest] at h
        simp only [Except.ok.injEq, Prod.mk.injEq] at h
        obtain ⟨hps, hw⟩ := h
        subst hw
        obtain ⟨hInv₁, e1, e2, e3, _⟩ := buy_ok_counters hInv hB
        obtain ⟨hInv₂, m1, m2⟩ := ih w₁ ps₂ w₂ hInv₁ hRest
        exact ⟨hInv₂, by omega, by omega⟩

theorem step_counters (w : World) (op : Op) (hInv : CountersInv w.contract) :
    CountersInv (step w op).contract ∧
    w.contract.productCounter ≤ (step w op).contract.productCounter ∧
    w.contract.purchaseCounter ≤ (step w op).contract.purchaseCounter := by
  cases op with
  | opInit a f =>
    simp only [step]
    cases hI : init_contract w.contract a f with
    | error e => exact ⟨hInv, le_refl _, le_refl _⟩
    | ok s =>
      obtain ⟨hI2, e1, e2⟩ := init_ok_counters hInv hI
      refine ⟨hI2, ?_, ?_⟩
      · show w.contract.productCounter ≤ s.productCounter
        omega
      · show w.contract.purchaseCounter ≤ s.purchaseCounter
        omega
  | opList sl pr tk nc nid mm =>
    simp only [step]
    cases hL : list_product w sl pr tk nc nid mm with
    | error e => exact ⟨hInv, le_refl _, le_refl _⟩
    | ok r =>
      obtain ⟨n, w1⟩ := r
      obtain ⟨hI2, e1, e2, e3, _⟩ := list_ok_counters hInv hL
      refine ⟨hI2, ?_, ?_⟩
      · show w.contract.productCounter ≤ w1.contract.productCounter
        omega
      · show w.contract.purchaseCounter ≤ w1.contract.purchaseCounter
        omega
  | opUnlist sl pid =>
    simp only [step]
    cases hU : unlist_product w sl pid with
    | error e => exact ⟨hInv, le_refl _, le_refl _⟩
    | ok r =>
      obtain ⟨bb, w1⟩ := r
      obtain ⟨hI2, e1, e2⟩ := unlist_ok_counters hInv hU
      refine ⟨hI2, ?_, ?_⟩
      · show w.contract.productCounter ≤ w1.contract.productCounter
        omega
      · show w.contract.purchaseCounter ≤ w1.contract.purchaseCounter
        omega
  | opBuy b pid =>
    simp only [step]
    cases hB : buy_product w b pid with
    | error e => exact ⟨hInv, le_refl _, le_refl _⟩
    | ok r =>
      obtain ⟨n, w1⟩ := r
      obtain ⟨hI2, e1, e2, e3, _⟩ := buy_ok_counters hInv hB
      refine ⟨hI2, ?_, ?_⟩
      · show w.contract.productCounter ≤ w1.contract.productCounter
        omega
      · show w.contract.purchaseCounter ≤ w1.contract.purchaseCounter
        omega
  | opBatchBuy b pids =>
    simp only [step]
    cases hB : batch_buy_products w b pids with
    | error e => exact ⟨hInv, le_refl _, le_refl _⟩
    | ok r =>
      obtain ⟨ps, w1⟩ := r
      unfold batch_buy_products at hB
      cases hE : ensure_not_paused w.contract with
      | error e => rw [hE] at hB; exact Except.noConfusion hB
      | ok u =>
        rw [hE] at hB
        try simp only [] at hB
        obtain ⟨hI2, m1, m2⟩ := batch_loop_counters pids w ps w1 hInv hB
        refine ⟨hI2, ?_, ?_⟩
        · show w.contract.productCounter ≤ w1.contract.productCounter
          omega
        · show w.contract.purchaseCounter ≤ w1.contract.purchaseCounter
          omega
  | opUpdate sl pid pr mm =>
    simp only [step]
    cases hU : update_product w.contract sl pid pr mm with
    | error e => exact ⟨hInv, le_refl _, le_refl _⟩
    | ok r =>
      obtain ⟨bb, s1⟩ := r
      obtain ⟨hI2, e1, e2⟩ := update_ok_counters hInv hU
      refine ⟨hI2, ?_, ?_⟩
      · show w.contract.productCounter ≤ s1.productCounter
        omega
      · show w.contract.purchaseCounter ≤ s1.purchaseCounter
        omega
  | opPause a =>
    simp only [step]
    cases hP : pause_contract w.contract a with
    | error e => exact ⟨hInv, le_refl _, le_refl _⟩
    | ok r =>
      obtain ⟨bb, s1⟩ := r
      obtain ⟨hI2, e1, e2⟩ := pause_ok_counters hInv hP
      refine ⟨hI2, ?_, ?_⟩
      · show w.contract.productCounter ≤ s1.productCounter
        omega
      · show w.contract.purchaseCounter ≤ s1.purchaseCounter
        omega
  | opUnpause a =>
    simp only [step]
    cases hP : unpause_contract w.contract a with
    | error e => exact ⟨hInv, le_refl _, le_refl _⟩
    | ok r =>
      obtain ⟨bb, s1⟩ := r
      obtain ⟨hI2, e1, e2⟩ := unpause_ok_counters hInv hP
      refine ⟨hI2, ?_, ?_⟩
      · show w.contract.productCounter ≤ s1.productCounter
        omega
      · show w.contract.purchaseCounter ≤ s1.purchaseCounter
        omega
  | opUpdateFee a f =>
    simp only [step]
    cases hP : update_fee_percentage w.contract a f with
    | error e => exact ⟨hInv, le_refl _, le_refl _⟩
    | ok r =>
      obtain ⟨bb, s1⟩ := r
      obtain ⟨hI2, e1, e2⟩ := update_fee_ok_counters hInv hP
      refine ⟨hI2, ?_, ?_⟩
      · show w.contract.productCounter ≤ s1.productCounter
        omega
      · show w.contract.purchaseCounter ≤ s1.purchaseCounter
        omega

theorem batch_loop_iff {buyer : Addr} (ids : List Nat) :
    ∀ (w : World) (ps : List Nat) (w' : World),
    (batch_buy_loop buyer w ids = .ok (ps, w') ↔ SeqBuys buyer w ids ps w') := by
  induction ids with
  | nil =>
    intro w ps w'
    constructor
    · intro h
      unfold batch_buy_loop at h
      simp only [Except.ok.injEq, Prod.mk.injEq] at h
      obtain ⟨hps, hw⟩ := h
      subst hps
      subst hw
      exact SeqBuys.nil w
    · intro h
      cases h
      rfl
  | cons id rest ih =>
    intro w ps w'
    constructor
    · intro h
      unfold batch_buy_loop at h
      cases hB : buy_product w buyer id with
      | error e => rw [hB] at h; exact Except.noConfusion h
      | ok r =>
        obtain ⟨pid, w₁⟩ := r
        rw [hB] at h
        try simp only [] at h
        cases hR : batch_buy_loop buyer w₁ rest with
        | error e => rw [hR] at h; exact Except.noConfusion h
        | ok r₂ =>
          obtain ⟨ps₂, w₂⟩ := r₂
          rw [hR] at h
          simp only [Except.ok.injEq, Prod.mk.injEq] at h
          obtain ⟨hps, hw⟩ := h
          subst hw
          subst hps
          exact SeqBuys.cons w w₁ w₂ id pid rest ps₂ hB ((ih w₁ ps₂ w₂).mp hR)
    · intro h
      cases h
      rename_i w1 p pp hb hs
      unfold batch_buy_loop
      rw [hb]
      try simp only []
      rw [(ih w1 pp w').mpr hs]

theorem tdiv_eq_fdiv_of_nonneg {x : Int} (hx : 0 ≤ x) :
    Int.tdiv x 1000 = Int.fdiv x 1000 := by
  rw [Int.tdiv_eq_ediv hx (by norm_num), Int.fdiv_eq_ediv x (by norm_num)]

theorem pause_no_paused_error (s : ContractState) (a : Addr) :
    pause_contract s a ≠ .error .contractPaused := by
  intro hcon
  unfold pause_contract at hcon
  cases hA : is_admin s a with
  | error e =>
    rw [hA] at hcon
    simp only [Except.error.injEq] at hcon
    subst hcon
    unfold is_admin at hA
    cases hS : s.admin with
    | none => rw [hS] at hA; simp at hA
    | some x => rw [hS] at hA; exact Except.noConfusion hA
  | ok isAdm =>
    rw [hA] at hcon
    try simp only [] at hcon
    by_cases hAd : isAdm = false
    · rw [if_pos hAd] at hcon; simp at hcon
    · rw [if_neg hAd] at hcon
      cases hC : s.config with
      | none => rw [hC] at hcon; simp at hcon
      | some c2 =>
        rw [hC] at hcon
        try simp only [] at hcon
        by_cases hP2 : c2.is_paused = true
        · rw [if_pos hP2] at hcon; exact Except.noConfusion hcon
        · rw [if_neg hP2] at hcon; exact Except.noConfusion hcon

theorem unpause_no_paused_error (s : ContractState) (a : Addr) :
    unpause_contract s a ≠ .error .contractPaused := by
  intro hcon
  unfold unpause_contract at hcon
  cases hA : is_admin s a with
  | error e =>
    rw [hA] at hcon
    simp only [Except.error.injEq] at hcon
    subst hcon
    unfold is_admin at hA
    cases hS : s.admin with
    | none => rw [hS] at hA; simp at hA
    | some x => rw [hS] at hA; exact Except.noConfusion hA
  | ok isAdm =>
    rw [hA] at hcon
    try simp only [] at hcon
    by_cases hAd : isAdm = false
    · rw [if_pos hAd] at hcon; simp at hcon
    · rw [if_neg hAd] at hcon
      cases hC : s.config with
      | none => rw [hC] at hcon; simp at hcon
      | some c2 =>
        rw [hC] at hcon
        try simp only [] at hcon
        by_cases hP2 : c2.is_paused = false
        · rw [if_pos hP2] at hcon; exact Except.noConfusion hcon
        · rw [if_neg hP2] at hcon; exact Except.noConfusion hcon

theorem update_fee_no_paused_error (s : ContractState) (a : Addr) (f : Nat) :
    update_fee_percentage s a f ≠ .error .contractPaused := by
  intro hcon
  unfold update_fee_percentage at hcon
  cases hA : is_admin s a with
  | error e =>
    rw [hA] at hcon
    simp only [Except.error.injEq] at hcon
    subst hcon
    unfold is_admin at hA
    cases hS : s.admin with
    | none => rw [hS] at hA; simp at hA
    | some x => rw [hS] at hA; exact Except.noConfusion hA
  | ok isAdm =>
    rw [hA] at hcon
    try simp only [] at hcon
    by_cases hAd : isAdm = false
    · rw [if_pos hAd] at hcon; simp at hcon
    · rw [if_neg hAd] at hcon
      by_cases hF : f > 300
      · rw [if_pos hF] at hcon; simp at hcon
      · rw [if_neg hF] at hcon
        cases hC : s.config with
        | none => rw [hC] at hcon; simp at hcon
        | some c2 => rw [hC] at hcon; exact Except.noConfusion hcon

/-! ## Claim theorems -/

/-- C6: `initialize` fails with `AlreadyInitialized` when an admin is
already stored, fails (fee panic) when `fee_percentage` exceeds 300, and
otherwise stores the given admin, a config with the given fee and
`is_paused = false`, and sets both counters to zero. -/
theorem c6_init_contract_spec (s : ContractState) (a0 admin : Addr) (fee : Nat) :
    (s.admin = some a0 → init_contract s admin fee = .error .alreadyInitialized) ∧
    (s.admin = none → fee > 300 → init_contract s admin fee = .error .feeTooHigh) ∧
    (s.admin = none → fee ≤ 300 →
      init_contract s admin fee =
        .ok { s with admin := some admin,
                     config := some { fee_percentage := fee, is_paused := false },
                     productCounter := 0, purchaseCounter := 0 }) := by
  refine ⟨?_, ?_, ?_⟩
  · intro h
    simp [init_contract, h]
  · intro h1 h2
    simp [init_contract, h1, h2]
  · intro h1 h2
    unfold init_contract
    rw [if_neg (by simp [h1]), if_neg (by omega)]

/-- Witness for C6: initializing the empty state with admin 7 and fee 25
produces the expected stored state. -/
theorem c6_witness :
    Sempty.admin = none ∧ (25 : Nat) ≤ 300 ∧
    init_contract Sempty 7 25 =
      .ok { Sempty with admin := some 7,
                        config := some { fee_percentage := 25, is_paused := false },
                        productCounter := 0, purchaseCounter := 0 } :=
  ⟨rfl, by decide, (c6_init_contract_spec Sempty 0 7 25).2.2 rfl (by decide)⟩

/-- C5 counterexample: in state `S0` (admin 0, current fee 25), the
admin-authorized call `update_fee_percentage(0, 25)` sets the fee to its
current value — no state changes — yet it returns `true`, while the claim
says such a no-op call returns `false`. -/
theorem c5_counterexample :
    update_fee_percentage S0 0 25 = .ok (true, S0) := rfl

/-- C5 (amended): `pause_contract` and `unpause_contract` return `false`
when they cause no state change and `true` when they flip the pause flag,
but `update_fee_percentage` — admin-authorized with a fee of at most 300 —
always stores the fee and returns `true`, even when the new fee equals the
current one. -/
theorem c5_admin_toggle_returns (s : ContractState) (a : Addr)
    (cfg : ContractConfig) (f : Nat)
    (ha : s.admin = some a) (hc : s.config = some cfg) :
    (cfg.is_paused = true → pause_contract s a = .ok (false, s)) ∧
    (cfg.is_paused = false →
      pause_contract s a =
        .ok (true, { s with config := some { cfg with is_paused := true } })) ∧
    (cfg.is_paused = false → unpause_contract s a = .ok (false, s)) ∧
    (cfg.is_paused = true →
      unpause_contract s a =
        .ok (true, { s with config := some { cfg with is_paused := false } })) ∧
    (f ≤ 300 →
      update_fee_percentage s a f =
        .ok (true, { s with config := some { cfg with fee_percentage := f } })) := by
  refine ⟨?_, ?_, ?_, ?_, ?_⟩ <;> intro h
  · simp [pause_contract, is_admin, ha, hc, h]
  · simp [pause_contract, is_admin, ha, hc, h]
  · simp [unpause_contract, is_admin, ha, hc, h]
  · simp [unpause_contract, is_admin, ha, hc, h]
  · unfold update_fee_percentage
    simp only [is_admin, ha]
    rw [if_neg (by simp), if_neg (by omega), hc]

/-- Witness for C5 (amended): pausing the unpaused `S0` flips the flag and
returns `true`. -/
theorem c5_witness :
    S0.admin = some 0 ∧
    S0.config = some { fee_percentage := 25, is_paused := false } ∧
    pause_contract S0 0 =
      .ok (true, { S0 with config := some { fee_percentage := 25, is_paused := true } }) :=
  ⟨rfl, rfl,
   (c5_admin_toggle_returns S0 0 { fee_percentage := 25, is_paused := false } 25
      rfl rfl).2.1 rfl⟩

/-- C3: whenever the stored config has `is_paused = true`, each of
`list_product`, `unlist_product`, `buy_product`, `batch_buy_products` and
`update_product` fails with `ContractPaused`; and in every state,
`pause_contract`, `unpause_contract` and `update_fee_percentage` never fail
with `ContractPaused`. -/
theorem c3_pause_gating (w : World) (cfg : ContractConfig)
    (seller buyer adm : Addr) (price : Int) (token nftc : Addr) (nid : SymStr)
    (mm : Metrics) (pid : Nat) (pids : List Nat)
    (price? : Option Int) (m? : Option Metrics)
    (s : ContractState) (f : Nat)
    (hc : w.contract.config = some cfg) (hp : cfg.is_paused = true) :
    list_product w seller price token nftc nid mm = .error .contractPaused ∧
    unlist_product w seller pid = .error .contractPaused ∧
    buy_product w buyer pid = .error .contractPaused ∧
    batch_buy_products w buyer pids = .error .contractPaused ∧
    update_product w.contract seller pid price? m? = .error .contractPaused ∧
    pause_contract s adm ≠ .error .contractPaused ∧
    unpause_contract s adm ≠ .error .contractPaused ∧
    update_fee_percentage s adm f ≠ .error .contractPaused := by
  have hE : ensure_not_paused w.contract = .error .contractPaused :=
    ensure_paused_intro hc hp
  refine ⟨?_, ?_, ?_, ?_, ?_, pause_no_paused_error s adm,
    unpause_no_paused_error s adm, update_fee_no_paused_error s adm f⟩
  · unfold list_product; rw [hE]
  · unfold unlist_product; rw [hE]
  · unfold buy_product; rw [hE]
  · unfold batch_buy_products; rw [hE]
  · unfold update_product; rw [hE]

/-- Witness for C3 in the paused world `WP`: all five mutating entry points
fail with `ContractPaused`, and the admin controls never do. -/
theorem c3_witness :
    WP.contract.config = some { fee_percentage := 25, is_paused := true } ∧
    (list_product WP 1 50 5 6 "n2" [] = .error .contractPaused ∧
     unlist_product WP 1 1 = .error .contractPaused ∧
     buy_product WP 2 1 = .error .contractPaused ∧
     batch_buy_products WP 2 [1] = .error .contractPaused ∧
     update_product WP.contract 1 1 (some 60) none = .error .contractPaused ∧
     pause_contract S0 0 ≠ .error .contractPaused ∧
     unpause_contract S0 0 ≠ .error .contractPaused ∧
     update_fee_percentage S0 0 30 ≠ .error .contractPaused) :=
  ⟨rfl,
   c3_pause_gating WP { fee_percentage := 25, is_paused := true } 1 2 0 50 5 6 "n2"
     [] 1 [1] (some 60) none S0 30 rfl rfl⟩

/-- C8: with the contract not paused, `buy_product` fails with
`ProductNotFound` when the id is unknown, with `ProductNotListed` when the
product exists but is unlisted, with `CannotBuyOwnNFT` when a listed
product's seller is the buyer, and with `InsufficientFunds` when the buyer's
token balance is below the price; an error result commits no state at all
(host rollback, which the `Except` error shape captures). -/
theorem c8_buy_error_cases (w : World) (buyer : Addr) (pid : Nat)
    (cfg : ContractConfig) (p : ImpactProduct)
    (hc : w.contract.config = some cfg) (hp : cfg.is_paused = false) :
    (w.contract.products pid = none →
      buy_product w buyer pid = .error .productNotFound) ∧
    (w.contract.products pid = some p → p.is_listed = false →
      buy_product w buyer pid = .error .productNotListed) ∧
    (w.contract.products pid = some p → p.is_listed = true → p.seller = buyer →
      buy_product w buyer pid = .error .cannotBuyOwnNFT) ∧
    (w.contract.products pid = some p → p.is_listed = true → p.seller ≠ buyer →
      w.tokenBalances p.token buyer < p.price →
      buy_product w buyer pid = .error .insufficientFunds) := by
  have hE : ensure_not_paused w.contract = .ok () := ensure_ok_intro hc hp
  refine ⟨?_, ?_, ?_, ?_⟩
  · intro h
    unfold buy_product
    rw [hE]
    try simp only []
    rw [h]
  · intro h hL
    unfold buy_product
    rw [hE]
    try simp only []
    rw [h]
    try simp only []
    rw [if_pos hL]
  · intro h hL hSel
    unfold buy_product
    rw [hE]
    try simp only []
    rw [h]
    try simp only []
    rw [if_neg (by simp [hL]), if_pos (by simp [beq_iff_eq, hSel])]
  · intro h hL hSel hBal
    unfold buy_product
    rw [hE]
    try simp only []
    rw [h]
    try simp only []
    rw [if_neg (by simp [hL]), if_neg (by simp [beq_iff_eq]; exact hSel)]
    have hF : calculate_fee w.contract p.price =
        .ok (Int.tdiv (p.price * cfg.fee_percentage) 1000) := by
      simp [calculate_fee, hc]
    rw [hF]
    try simp only []
    rw [if_pos hBal]

/-- Witness for C8: each of the four error cases demonstrated on concrete
worlds — an unknown id, an already-sold product, a self-purchase, and a
broke buyer. -/
theorem c8_witness :
    W0.contract.config = some { fee_percentage := 25, is_paused := false } ∧
    buy_product W0 2 3 = .error .productNotFound ∧
    buy_product W1 2 1 = .error .productNotListed ∧
    buy_product W0 1 1 = .error .cannotBuyOwnNFT ∧
    buy_product W0 3 1 = .error .insufficientFunds :=
  ⟨rfl,
   (c8_buy_error_cases W0 2 3 { fee_percentage := 25, is_paused := false } P0
      rfl rfl).1 rfl,
   (c8_buy_error_cases W1 2 1 { fee_percentage := 25, is_paused := false }
      { P0 with is_listed := false } rfl rfl).2.1 rfl rfl,
   (c8_buy_error_cases W0 1 1 { fee_percentage := 25, is_paused := false } P0
      rfl rfl).2.2.1 rfl rfl rfl,
   (c8_buy_error_cases W0 3 1 { fee_percentage := 25, is_paused := false } P0
      rfl rfl).2.2.2 rfl rfl (by decide) (by decide)⟩

/-- C9: `update_product` fails with `ContractPaused` when paused, with
`ProductNotFound` when the id is unknown, with `Unauthorized` when the
caller is not the product's seller, and with `ProductNotListed` when the
product is already unlisted; on success it returns `true` and replaces
exactly the provided optional fields of the one product, leaving its other
fields, every other product, all purchases, both counters, the admin, the
config and the index lists unchanged. -/
theorem c9_update_product_spec (s : ContractState) (seller : Addr) (pid j : Nat)
    (price? : Option Int) (m? : Option Metrics) (cfg : ContractConfig)
    (p : ImpactProduct) (b : Bool) (s' : ContractState) :
    (s.config = some cfg → cfg.is_paused = true →
      update_product s seller pid price? m? = .error .contractPaused) ∧
    (s.config = some cfg → cfg.is_paused = false → s.products pid = none →
      update_product s seller pid price? m? = .error .productNotFound) ∧
    (s.config = some cfg → cfg.is_paused = false → s.products pid = some p →
      p.seller ≠ seller →
      update_product s seller pid price? m? = .error .unauthorized) ∧
    (s.config = some cfg → cfg.is_paused = false → s.products pid = some p →
      p.seller = seller → p.is_listed = false →
      update_product s seller pid price? m? = .error .productNotListed) ∧
    (s.products pid = some p →
      update_product s seller pid price? m? = .ok (b, s') →
      b = true ∧
      get_product s' pid =
        some { p with price := price?.getD p.price,
                      impact_metrics := m?.getD p.impact_metrics } ∧
      (j ≠ pid → get_product s' j = get_product s j) ∧
      s'.purchases = s.purchases ∧ s'.admin = s.admin ∧ s'.config = s.config ∧
      s'.productCounter = s.productCounter ∧
      s'.purchaseCounter = s.purchaseCounter ∧
      s'.sellerProducts = s.sellerProducts ∧
      s'.buyerPurchases = s.buyerPurchases) := by
  refine ⟨?_, ?_, ?_, ?_, ?_⟩
  · intro hc hp
    unfold update_product
    rw [ensure_paused_intro hc hp]
  · intro hc hp h
    unfold update_product
    rw [ensure_ok_intro hc hp]
    try simp only []
    rw [h]
  · intro hc hp h hSel
    unfold update_product
    rw [ensure_ok_intro hc hp]
    try simp only []
    rw [h]
    try simp only []
    rw [if_pos hSel]
  · intro hc hp h hSel hL
    unfold update_product
    rw [ensure_ok_intro hc hp]
    try simp only []
    rw [h]
    try simp only []
    rw [if_neg (by simp [hSel]), if_pos hL]
  · intro hprod h
    obtain ⟨cfg2, p2, hc2, hp2, hprod2, hsel2, hlist2, hb, hs⟩ :=
      update_product_ok_elim h
    rw [hprod] at hprod2
    injection hprod2 with hpp
    subst hpp
    subst hs
    refine ⟨hb, ?_, ?_, rfl, rfl, rfl, rfl, rfl, rfl, rfl⟩
    · show upd s.products pid
        (some { p with price := price?.getD p.price,
                       impact_metrics := m?.getD p.impact_metrics }) pid = _
      rw [upd_same]
    · intro hj
      show upd s.products pid
        (some { p with price := price?.getD p.price,
                       impact_metrics := m?.getD p.impact_metrics }) j = s.products j
      rw [upd_ne _ _ _ hj]

/-- Witness for C9: seller 1 raising product 1's price to 2000 in `S0`
returns `true`, stores exactly the new price, and changes nothing else. -/
theorem c9_witness :
    S0.products 1 = some P0 ∧
    update_product S0 1 1 (some 2000) none = .ok (true, SU) ∧
    (true = true ∧
     get_product SU 1 =
       some { P0 with price := (some (2000 : Int)).getD P0.price,
                      impact_metrics := (none : Option Metrics).getD P0.impact_metrics } ∧
     ((2 : Nat) ≠ 1 → get_product SU 2 = get_product S0 2) ∧
     SU.purchases = S0.purchases ∧ SU.admin = S0.admin ∧ SU.config = S0.config ∧
     SU.productCounter = S0.productCounter ∧
     SU.purchaseCounter = S0.purchaseCounter ∧
     SU.sellerProducts = S0.sellerProducts ∧
     SU.buyerPurchases = S0.buyerPurchases) :=
  ⟨rfl, rfl,
   (c9_update_product_spec S0 1 1 2 (some 2000) none
      { fee_percentage := 25, is_paused := false } P0 true SU).2.2.2.2 rfl rfl⟩

/-- C10: `list_product` performs no validation on the price: for every
`i128` price — zero and negative included — a not-paused listing by the
NFT's owner succeeds and stores the product with exactly that price, and the
fee later applied by `buy_product` is `calculate_fee`, the truncating
division `(price * fee_percentage).tdiv 1000`. -/
theorem c10_list_no_price_validation (w : World) (seller : Addr)
    (price amount : Int) (token nftc : Addr) (nid : SymStr) (mm : Metrics)
    (cfg : ContractConfig) (n : Nat) (w' : World)
    (hc : w.contract.config = some cfg) (hp : cfg.is_paused = false)
    (hown : w.nftOwner (nftc, nid) = seller) :
    (list_product w seller price token nftc nid mm).isOk = true ∧
    (list_product w seller price token nftc nid mm = .ok (n, w') →
      n = w.contract.productCounter + 1 ∧
      get_product w'.contract n =
        some { id := n, price := price, seller := seller, token := token,
               nft_contract := nftc, nft_token_id := nid, impact_metrics := mm,
               is_listed := true }) ∧
    calculate_fee w.contract amount =
      .ok (Int.tdiv (amount * cfg.fee_percentage) 1000) := by
  refine ⟨?_, ?_, by simp [calculate_fee, hc]⟩
  · unfold list_product
    rw [ensure_ok_intro hc hp]
    try simp only []
    rw [if_neg (by simp [hown])]
    rfl
  · intro h
    obtain ⟨_, _, hn, hw⟩ := list_product_ok_elim h
    subst hw
    subst hn
    refine ⟨rfl, ?_⟩
    show upd w.contract.products (w.contract.productCounter + 1) _ _ = _
    rw [upd_same]

/-- Witness for C10: listing the NFT (6, "n2") at the negative price -5
succeeds in `W0b` and stores price -5; the fee on an amount of 1000 at fee
percentage 25 is the truncating division. -/
theorem c10_witness :
    W0b.contract.config = some { fee_percentage := 25, is_paused := false } ∧
    W0b.nftOwner (6, "n2") = 1 ∧
    ((list_product W0b 1 (-5) 5 6 "n2" []).isOk = true ∧
     (list_product W0b 1 (-5) 5 6 "n2" [] = .ok (2, WL) →
       2 = W0b.contract.productCounter + 1 ∧
       get_product WL.contract 2 =
         some { id := 2, price := -5, seller := 1, token := 5, nft_contract := 6,
                nft_token_id := "n2", impact_metrics := [], is_listed := true }) ∧
     calculate_fee W0b.contract 1000 =
       .ok (Int.tdiv ((1000 : Int) * ((25 : Nat) : Int)) 1000)) :=
  ⟨rfl, rfl,
   c10_list_no_price_validation W0b 1 (-5) 1000 5 6 "n2" []
     { fee_percentage := 25, is_paused := false } 2 WL rfl rfl rfl⟩

/-- C7: immediately after a successful `list_product` returning id `n`,
`get_product n` yields a listed product with exactly the given arguments;
immediately after a successful `buy_product` or `unlist_product` of product
`pid`, `get_product pid` yields the prior product with `is_listed` cleared
and all other fields intact. -/
theorem c7_get_product_after (w w' : World) (n pid : Nat) (b : Bool)
    (seller buyer : Addr) (price : Int) (token nftc : Addr) (nid : SymStr)
    (mm : Metrics) (p : ImpactProduct) :
    (list_product w seller price token nftc nid mm = .ok (n, w') →
      get_product w'.contract n =
        some { id := n, price := price, seller := seller, token := token,
               nft_contract := nftc, nft_token_id := nid, impact_metrics := mm,
               is_listed := true }) ∧
    (w.contract.products pid = some p → buy_product w buyer pid = .ok (n, w') →
      get_product w'.contract pid = some { p with is_listed := false }) ∧
    (w.contract.products pid = some p →
      unlist_product w seller pid = .ok (b, w') →
      get_product w'.contract pid = some { p with is_listed := false }) := by
  refine ⟨?_, ?_, ?_⟩
  · intro h
    obtain ⟨_, _, hn, hw⟩ := list_product_ok_elim h
    subst hw
    subst hn
    show upd w.contract.products (w.contract.productCounter + 1) _ _ = _
    rw [upd_same]
  · intro hprod h
    obtain ⟨cfg, p2, a, fee, hc, hcp, hprod2, hL2, hSel, hAdm, hfee, hf0, hs0,
      hbal, hn, hw⟩ := buy_product_ok_elim h
    rw [hprod] at hprod2
    injection hprod2 with hpp
    subst hpp
    subst hw
    show upd w.contract.products pid _ _ = _
    rw [upd_same]
  · intro hprod h
    obtain ⟨cfg, p2, a, hc, hcp, hprod2, hadm, hcase⟩ := unlist_product_ok_elim h
    rw [hprod] at hprod2
    injection hprod2 with hpp
    subst hpp
    rcases hcase with ⟨hb, hL, hw⟩ | ⟨hb, hL, hw⟩
    · subst hw
      have hpe : ({ p with is_listed := false } : ImpactProduct) = p := by
        obtain ⟨pi, pp2, ps, pt, pn, pk, pm, pl⟩ := p
        have hL2 : pl = false := hL
        subst hL2
        rfl
      unfold get_product
      rw [hprod, hpe]
    · subst hw
      show upd w.contract.products pid _ _ = _
      rw [upd_same]

/-- Witness for C7: fetching after the listing in `W0b`, after the purchase
`W0` to `W1`, and after the unlisting `W0` to `WU`. -/
theorem c7_witness :
    get_product WL.contract 2 =
      some { id := 2, price := -5, seller := 1, token := 5, nft_contract := 6,
             nft_token_id := "n2", impact_metrics := [], is_listed := true } ∧
    get_product W1.contract 1 = some { P0 with is_listed := false } ∧
    get_product WU.contract 1 = some { P0 with is_listed := false } :=
  ⟨(c7_get_product_after W0b WL 2 1 true 1 2 (-5) 5 6 "n2" [] P0).1 rfl,
   (c7_get_product_after W0 W1 1 1 true 1 2 1000 5 6 "n1" [] P0).2.1 rfl rfl,
   (c7_get_product_after W0 WU 1 1 true 1 2 1000 5 6 "n1" [] P0).2.2 rfl rfl⟩

/-- C1: on every successful `buy_product` of a product priced `p` under fee
percentage `f` (with buyer, seller and admin pairwise distinct), the admin's
balance rises by floor(p*f/1000), the seller's by p minus that fee, the
buyer's falls by exactly p, and fee plus seller amount is exactly p.  The
code computes the fee with truncating division, which on a successful
purchase (amounts are necessarily nonnegative) coincides with the floor. -/
theorem c1_buy_fee_split (w w' : World) (buyer a : Addr) (n pid : Nat)
    (cfg : ContractConfig) (p : ImpactProduct)
    (hc : w.contract.config = some cfg) (ha : w.contract.admin = some a)
    (hprod : w.contract.products pid = some p)
    (hbs : buyer ≠ p.seller) (hba : buyer ≠ a) (hsa : p.seller ≠ a)
    (h : buy_product w buyer pid = .ok (n, w')) :
    w'.tokenBalances p.token a =
      w.tokenBalances p.token a + Int.fdiv (p.price * cfg.fee_percentage) 1000 ∧
    w'.tokenBalances p.token p.seller =
      w.tokenBalances p.token p.seller +
        (p.price - Int.fdiv (p.price * cfg.fee_percentage) 1000) ∧
    w'.tokenBalances p.token buyer = w.tokenBalances p.token buyer - p.price ∧
    Int.fdiv (p.price * cfg.fee_percentage) 1000 +
      (p.price - Int.fdiv (p.price * cfg.fee_percentage) 1000) = p.price := by
  obtain ⟨cfg2, p2, a2, fee, hc2, hp2, hprod2, hL, hSel, hAdm2, hfee, hf0, hs0,
    hbal, hn, hw⟩ := buy_product_ok_elim h
  rw [hc] at hc2
  injection hc2 with hcc
  subst hcc
  rw [hprod] at hprod2
  injection hprod2 with hpp
  subst hpp
  rw [ha] at hAdm2
  injection hAdm2 with haa
  subst haa
  subst hw
  have hpr : 0 ≤ p.price := by omega
  have hnn : 0 ≤ p.price * (cfg.fee_percentage : Int) :=
    mul_nonneg hpr (Int.natCast_nonneg _)
  have hdiv : Int.tdiv (p.price * cfg.fee_percentage) 1000
      = Int.fdiv (p.price * cfg.fee_percentage) 1000 := tdiv_eq_fdiv_of_nonneg hnn
  subst hfee
  refine ⟨?_, ?_, ?_, by ring⟩
  · have e : (upd w.tokenBalances p.token
        (applyTransfer
          (applyTransfer (w.tokenBalances p.token) buyer p.seller
            (p.price - Int.tdiv (p.price * cfg.fee_percentage) 1000))
          buyer a (Int.tdiv (p.price * cfg.fee_percentage) 1000))) p.token a
        = w.tokenBalances p.token a
          + Int.tdiv (p.price * cfg.fee_percentage) 1000 := by
      rw [upd_same, applyTransfer_dest (Ne.symm hba),
        applyTransfer_other (Ne.symm hba) (Ne.symm hsa)]
    rw [← hdiv]
    exact e
  · have e : (upd w.tokenBalances p.token
        (applyTransfer
          (applyTransfer (w.tokenBalances p.token) buyer p.seller
            (p.price - Int.tdiv (p.price * cfg.fee_percentage) 1000))
          buyer a (Int.tdiv (p.price * cfg.fee_percentage) 1000))) p.token p.seller
        = w.tokenBalances p.token p.seller
          + (p.price - Int.tdiv (p.price * cfg.fee_percentage) 1000) := by
      rw [upd_same, applyTransfer_other (Ne.symm hbs) hsa,
        applyTransfer_dest (Ne.symm hbs)]
    rw [← hdiv]
    exact e
  · have e : (upd w.tokenBalances p.token
        (applyTransfer
          (applyTransfer (w.tokenBalances p.token) buyer p.seller
            (p.price - Int.tdiv (p.price * cfg.fee_percentage) 1000))
          buyer a (Int.tdiv (p.price * cfg.fee_percentage) 1000))) p.token buyer
        = w.tokenBalances p.token buyer - p.price := by
      rw [upd_same, applyTransfer_source hba, applyTransfer_source hbs]
      ring
    exact e

/-- Witness for C1: buyer 2 purchases product 1 (price 1000, fee 2.5
percent) in `W0`; the admin gains 25, the seller 975, the buyer pays 1000. -/
theorem c1_witness :
    buy_product W0 2 1 = .ok (1, W1) ∧
    (W1.tokenBalances P0.token 0 =
       W0.tokenBalances P0.token 0 +
         Int.fdiv (P0.price * ((25 : Nat) : Int)) 1000 ∧
     W1.tokenBalances P0.token P0.seller =
       W0.tokenBalances P0.token P0.seller +
         (P0.price - Int.fdiv (P0.price * ((25 : Nat) : Int)) 1000) ∧
     W1.tokenBalances P0.token 2 = W0.tokenBalances P0.token 2 - P0.price ∧
     Int.fdiv (P0.price * ((25 : Nat) : Int)) 1000 +
       (P0.price - Int.fdiv (P0.price * ((25 : Nat) : Int)) 1000) = P0.price) :=
  ⟨rfl,
   c1_buy_fee_split W0 W1 2 0 1 1 { fee_percentage := 25, is_paused := false } P0
     rfl rfl rfl (by decide) (by decide) (by decide) rfl⟩

/-- C4: every successful `list_product` returns the previous product counter
plus one and every successful `buy_product` returns the previous purchase
counter plus one, the returned id was never stored before (so ids are never
reused, also after unlisting, which keeps the record), and one committed
step of any entry point preserves the counter invariant and never decreases
either counter — so ids are strictly increasing across any operation
sequence. -/
theorem c4_ids_monotone (w w' : World) (op : Op) (n : Nat)
    (seller buyer : Addr) (price : Int) (token nftc : Addr) (nid : SymStr)
    (mm : Metrics) (pid : Nat)
    (hInv : CountersInv w.contract) :
    (list_product w seller price token nftc nid mm = .ok (n, w') →
      n = w.contract.productCounter + 1 ∧ w'.contract.productCounter = n ∧
      get_product w.contract n = none ∧ CountersInv w'.contract) ∧
    (buy_product w buyer pid = .ok (n, w') →
      n = w.contract.purchaseCounter + 1 ∧ w'.contract.purchaseCounter = n ∧
      get_purchase w.contract n = none ∧ CountersInv w'.contract) ∧
    (CountersInv (step w op).contract ∧
     w.contract.productCounter ≤ (step w op).contract.productCounter ∧
     w.contract.purchaseCounter ≤ (step w op).contract.purchaseCounter) := by
  refine ⟨?_, ?_, step_counters w op hInv⟩
  · intro h
    obtain ⟨hI2, e1, e2, e3, e4⟩ := list_ok_counters hInv h
    exact ⟨e1, e2, e4, hI2⟩
  · intro h
    obtain ⟨hI2, e1, e2, e3, e4⟩ := buy_ok_counters hInv h
    exact ⟨e1, e2, e4, hI2⟩

/-- Witness for C4: the purchase step from `W0` returns purchase id 1 =
0 + 1, id 1 was unused, and the committed step preserves the invariant and
counters. -/
theorem c4_witness :
    CountersInv W0.contract ∧
    (1 = W0.contract.purchaseCounter + 1 ∧ W1.contract.purchaseCounter = 1 ∧
     get_purchase W0.contract 1 = none ∧ CountersInv W1.contract) ∧
    (CountersInv (step W0 (Op.opBuy 2 1)).contract ∧
     W0.contract.productCounter ≤ (step W0 (Op.opBuy 2 1)).contract.productCounter ∧
     W0.contract.purchaseCounter ≤ (step W0 (Op.opBuy 2 1)).contract.purchaseCounter) := by
  have hInv : CountersInv W0.contract := by
    refine ⟨?_, ?_, ?_⟩
    · intro id hid
      by_cases h1 : id = 1
      · subst h1; decide
      · exfalso
        have hz : W0.contract.products id = none := by
          show (if id = 1 then some P0 else none) = none
          rw [if_neg h1]
        rw [hz] at hid
        exact Bool.noConfusion hid
    · intro id hid
      have hz : W0.contract.purchases id = none := rfl
      rw [hz] at hid
      exact Bool.noConfusion hid
    · intro hnone
      exact Option.noConfusion hnone
  have h := c4_ids_monotone W0 W1 (Op.opBuy 2 1) 1 1 2 1000 5 6 "n1" [] 1 hInv
  exact ⟨hInv, h.2.1 rfl, h.2.2⟩

/-- C2: provided the batch's own pause check passes, `batch_buy_products`
returns ids `ps` and final world `w'` exactly when `buy_product` succeeds
once per id, in the given order, threading the state; hence if any single
`buy_product` fails the whole batch returns an error, and an error carries
no state at all — the pre-batch state is what remains (host rollback, the
`Except` error shape). -/
theorem c2_batch_sequential (w w' : World) (buyer : Addr) (ids ps : List Nat)
    (hE : ensure_not_paused w.contract = .ok ()) :
    batch_buy_products w buyer ids = .ok (ps, w') ↔ SeqBuys buyer w ids ps w' := by
  unfold batch_buy_products
  rw [hE]
  try simp only []
  exact batch_loop_iff ids w ps w'

/-- Witness for C2: the singleton batch `[1]` bought by buyer 2 in `W0`. -/
theorem c2_witness :
    ensure_not_paused W0.contract = .ok () ∧
    (batch_buy_products W0 2 [1] = .ok ([1], WB) ↔ SeqBuys 2 W0 [1] [1] WB) :=
  ⟨rfl, c2_batch_sequential W0 WB 2 [1] [1] rfl⟩

end ImpactBuyer
